import Mathlib

/-!
Shallow embedding of `sl_gameserver.py`, the server side of a multiplayer
word-guessing game.  Lobbies are held in a process-wide registry; each
websocket connection runs a per-connection state machine (`onMessage`,
`onClose`).  Python dictionaries are embedded as insertion-ordered
association lists, Python sets as duplicate-free lists, and the object
graph (sessions holding references to lobby objects that may outlive
their registry entry) as a heap of lobbies addressed by numeric
references.  Outbound sends, connection closes and mutex acquisitions are
recorded as an event trace; uncaught Python exceptions are recorded in the
step outcome.
-/

namespace SLGameServer

/-- Splits a character list at the first space, returning the parts before
and after it, or none when there is no space. -/
def splitAtFirstSpace : List Char → Option (List Char × List Char)
  | [] => none
  | c :: cs =>
    if c = ' ' then some ([], cs)
    else
      match splitAtFirstSpace cs with
      | none => none
      | some (a, b) => some (c :: a, b)

/-- Python `msg.split(" ", 1)`: the first token and, when a space occurs,
the remainder after that first space. -/
def pySplit1 (s : String) : String × Option String :=
  match splitAtFirstSpace s.data with
  | none => (s, none)
  | some (a, b) => (String.mk a, some (String.mk b))

/-- Python `msg.partition(" ")`, keeping only the parts before and after
the first space (the part after is empty when there is no space). -/
def pyPartition (s : String) : String × String :=
  match splitAtFirstSpace s.data with
  | none => (s, "")
  | some (a, b) => (String.mk a, String.mk b)

/-- One character of Python `str.isalnum`, restricted to the ASCII letters
and digits that the game's protocol uses. -/
def isAlnumChar (c : Char) : Bool :=
  c.isAlpha || c.isDigit

/-- Python `s.isalnum()`: true when `s` is nonempty and every character is
alphanumeric. -/
def pyIsAlnum (s : String) : Bool :=
  !s.data.isEmpty && s.data.all isAlnumChar

/-- `validateName` from the source: `len(name) <= 10 and name.isalnum()`. -/
def validateName (name : String) : Bool :=
  decide (name.length ≤ 10) && pyIsAlnum name

/-- Lookup in an insertion-ordered association list (Python `d[k]` /
`d.get(k)`). -/
def dictGet {α β : Type} [DecidableEq α] (k : α) : List (α × β) → Option β
  | [] => none
  | (k', v) :: l => if k' = k then some v else dictGet k l

/-- Python `d[k] = v` on an insertion-ordered dictionary: replace the value
of an existing key in place, otherwise append the new binding. -/
def dictSet {α β : Type} [DecidableEq α] (k : α) (v : β) : List (α × β) → List (α × β)
  | [] => [(k, v)]
  | (k', v') :: l => if k' = k then (k, v) :: l else (k', v') :: dictSet k v l

/-- Python `del d[k]`. -/
def dictDel {α β : Type} [DecidableEq α] (k : α) (l : List (α × β)) : List (α × β) :=
  l.filter (fun p => p.1 ≠ k)

/-- Python `s.add(x)` on a set embedded as a duplicate-free list. -/
def setAdd {α : Type} [DecidableEq α] (x : α) (l : List α) : List α :=
  if x ∈ l then l else l ++ [x]

/-- Python `s.discard(x)` on a set embedded as a duplicate-free list. -/
def setDiscard {α : Type} [DecidableEq α] (x : α) (l : List α) : List α :=
  l.filter (fun y => y ≠ x)

/-- Identifier of a live websocket connection. -/
abbrev ConnId := Nat

/-- Reference to a lobby object in the heap (Python object identity). -/
abbrev LobbyRef := Nat

/-- The `ClientState` enumeration of the source. -/
inductive ClientState where
  | justConnected
  | receivingWords
  | gettingName
  | playing
deriving DecidableEq, Repr

/-- The `Lobby` namedtuple: ordered player roster (name to optional live
connection), ordered word list (word to optional answerer name), and the
give-up set.  The per-lobby mutex is modelled by acquisition events. -/
structure Lobby where
  players : List (String × Option ConnId)
  words : List (String × Option String)
  giveups : List String
deriving DecidableEq, Repr

/-- Process-wide state: the heap of lobby objects, the `lobbies` registry
mapping lobby-name strings to heap references, and the next fresh heap
reference. -/
structure GlobalState where
  heap : List (LobbyRef × Lobby)
  lobbies : List (String × LobbyRef)
  nextRef : LobbyRef
deriving DecidableEq, Repr

/-- Per-connection session state: the connection id and the `self.*`
attributes of `SLServerProtocol` (`none` models a not-yet-assigned
attribute, whose read raises `AttributeError`). -/
structure Session where
  conn : ConnId
  clientState : ClientState
  name : Option String
  lobbyname : Option String
  lobby : Option LobbyRef
deriving DecidableEq, Repr

/-- The two mutex kinds of the program: the global `lobbies_lock` and one
lock per lobby object. -/
inductive LockTag where
  | registry
  | lobbyLock (ref : LobbyRef)
deriving DecidableEq, Repr

/-- Observable actions of one handler invocation, in program order. -/
inductive Event where
  | send (target : ConnId) (msg : String)
  | close (target : ConnId)
  | acquire (l : LockTag)
deriving DecidableEq, Repr

/-- Python exceptions that can escape a handler in this program. -/
inductive PyExn where
  | indexError
  | keyError
  | attributeError
  | danglingRef
deriving DecidableEq, Repr

/-- How a handler invocation ended: a normal return, an uncaught
exception, or the id-generation loop running out of fresh draws (which in
the source would spin forever). -/
inductive Outcome where
  | normal
  | raised (e : PyExn)
  | neverReturns
deriving DecidableEq, Repr

/-- Result of one handler invocation: the updated global state, the
updated session, the emitted events in order, and the outcome. -/
structure StepResult where
  g : GlobalState
  s : Session
  evs : List Event
  outcome : Outcome
deriving DecidableEq, Repr

/-- `announceMsg` from the source: send `msg` to every player whose
connection is live, skipping the player named `selfName` unless
`sendToSelf`. -/
def announceMsg (lb : Lobby) (selfName : String) (msg : String) (sendToSelf : Bool) :
    List Event :=
  lb.players.filterMap (fun pc =>
    match pc.2 with
    | some c => if pc.1 ≠ selfName || sendToSelf then some (.send c msg) else none
    | none => none)

/-- Number of players of a lobby whose connection is live. -/
def connectedCount (lb : Lobby) : Nat :=
  (lb.players.filter (fun pc => pc.2.isSome)).length

/-- `check_giveup` from the source: when the give-up set is at least as
large as the number of connected players, announce `:allgiveup` to
everyone (the caller included) and report true. -/
def check_giveup (lb : Lobby) (selfName : String) : Bool × List Event :=
  if lb.giveups.length ≥ connectedCount lb then
    (true, announceMsg lb selfName ":allgiveup" true)
  else (false, [])

/-- Store an updated lobby object back into the heap. -/
def heapSet (ref : LobbyRef) (lb : Lobby) (g : GlobalState) : GlobalState :=
  { g with heap := dictSet ref lb g.heap }

/-- The `while True: random.randrange(9999)` loop that draws candidate
lobby names until one is free; `draws` supplies the successive random
values, and `none` means the supply ran out (the source would keep
spinning). -/
def genLobbyName (draws : List Nat) (reg : List (String × LobbyRef)) : Option String :=
  (draws.map (fun n => toString n)).find? (fun nm => (dictGet nm reg).isNone)

/-- The `ClientState.justConnected` branch of `onMessage`: `:host <name>`
creates a lobby, `:join <lobbyId>` looks one up; a missing argument raises
an `IndexError` that the surrounding `except ValueError` does not catch. -/
def handleJustConnected (g : GlobalState) (s : Session) (draws : List Nat)
    (msg : String) : StepResult :=
  let smsg := pySplit1 msg
  if smsg.1 = ":host" then
    match smsg.2 with
    | none => ⟨g, s, [], .raised .indexError⟩
    | some arg =>
      let s1 := { s with name := some arg }
      if validateName arg = false then
        ⟨g, s1, [.send s1.conn ":badname", .close s1.conn], .normal⟩
      else
        let s2 := { s1 with lobbyname := some "0" }
        match genLobbyName draws g.lobbies with
        | none => ⟨g, s2, [.acquire .registry], .neverReturns⟩
        | some ln =>
          let ref := g.nextRef
          let newLobby : Lobby := ⟨[], [], []⟩
          let g1 : GlobalState :=
            ⟨dictSet ref newLobby g.heap, dictSet ln ref g.lobbies, ref + 1⟩
          ⟨g1, { s2 with
                 lobbyname := some ln
                 lobby := some ref
                 clientState := .receivingWords },
           [.acquire .registry], .normal⟩
  else if smsg.1 = ":join" then
    match smsg.2 with
    | none => ⟨g, s, [], .raised .indexError⟩
    | some arg =>
      let s1 := { s with lobbyname := some arg }
      match dictGet arg g.lobbies with
      | none =>
        ⟨g, s1, [.acquire .registry, .send s1.conn ":nolobby", .close s1.conn], .normal⟩
      | some ref =>
        let s2 := { s1 with lobby := some ref }
        match dictGet ref g.heap with
        | none => ⟨g, s2, [.acquire .registry, .acquire (.lobbyLock ref)],
                   .raised .danglingRef⟩
        | some lb =>
          if lb.players.isEmpty then
            ⟨g, s2, [.acquire .registry, .acquire (.lobbyLock ref),
                     .send s2.conn ":nolobby", .close s2.conn], .normal⟩
          else
            let evs := lb.players.map (fun pc =>
              Event.send s2.conn
                (":player " ++ (if pc.2.isSome then "y" else "n") ++ " " ++ pc.1))
            ⟨g, { s2 with clientState := .gettingName },
             [.acquire .registry, .acquire (.lobbyLock ref)] ++ evs ++
               [.send s2.conn ":endplayers"], .normal⟩
  else ⟨g, s, [], .normal⟩

/-- The `ClientState.receivingWords` branch of `onMessage`: `:endwords`
inserts the host into the roster and echoes the lobby id; any other line
records the first token as a word, solved by the host exactly when the
remainder is the literal string `y`. -/
def handleReceivingWords (g : GlobalState) (s : Session) (msg : String) : StepResult :=
  let p := pyPartition msg
  match s.lobby with
  | none => ⟨g, s, [], .raised .attributeError⟩
  | some ref =>
    match dictGet ref g.heap with
    | none => ⟨g, s, [.acquire (.lobbyLock ref)], .raised .danglingRef⟩
    | some lb =>
      if p.1 = ":endwords" then
        match s.name with
        | none => ⟨g, s, [.acquire (.lobbyLock ref)], .raised .attributeError⟩
        | some nm =>
          let g1 := heapSet ref { lb with players := dictSet nm (some s.conn) lb.players } g
          match s.lobbyname with
          | none => ⟨g1, s, [.acquire (.lobbyLock ref)], .raised .attributeError⟩
          | some ln =>
            ⟨g1, { s with clientState := .playing },
             [.acquire (.lobbyLock ref), .send s.conn ln], .normal⟩
      else
        match s.name with
        | none => ⟨g, s, [.acquire (.lobbyLock ref)], .raised .attributeError⟩
        | some nm =>
          ⟨heapSet ref
             { lb with words := dictSet p.1 (if p.2 = "y" then some nm else none) lb.words } g,
           s, [.acquire (.lobbyLock ref)], .normal⟩

/-- The `ClientState.gettingName` branch of `onMessage`: the whole message
is the chosen name; on rejection reply `:badname` and stay; on acceptance
send the word list, `:endwords`, the solved-word attempts, the give-up
list, inherit a unanimous give-up, broadcast `:join`, and only then insert
the joiner into the roster. -/
def handleGettingName (g : GlobalState) (s : Session) (msg : String) : StepResult :=
  let s1 := { s with name := some msg }
  match s1.lobby with
  | none => ⟨g, s1, [], .raised .attributeError⟩
  | some ref =>
    match dictGet ref g.heap with
    | none => ⟨g, s1, [.acquire (.lobbyLock ref)], .raised .danglingRef⟩
    | some lb =>
      if validateName msg = false || ((dictGet msg lb.players).bind id).isSome then
        ⟨g, s1, [.acquire (.lobbyLock ref), .send s1.conn ":badname"], .normal⟩
      else
        let wordEvs := lb.words.map (fun wa => Event.send s1.conn wa.1)
        let correct := lb.words.filterMap (fun wa => wa.2.map (fun ans => (wa.1, ans)))
        let attemptEvs := correct.map (fun wa =>
          Event.send s1.conn (":attempt " ++ wa.1 ++ " " ++ wa.2))
        let giveupEvs := lb.giveups.map (fun gp =>
          Event.send s1.conn (":giveup " ++ gp))
        let cg := check_giveup lb msg
        let giveups1 := if cg.1 then setAdd msg lb.giveups else lb.giveups
        let joinEvs := announceMsg lb msg (":join " ++ msg) true
        let lb1 := { lb with
                     giveups := giveups1
                     players := dictSet msg (some s1.conn) lb.players }
        ⟨heapSet ref lb1 g, { s1 with clientState := .playing },
         [.acquire (.lobbyLock ref)] ++ wordEvs ++ [.send s1.conn ":endwords"] ++
           attemptEvs ++ giveupEvs ++ cg.2 ++ joinEvs, .normal⟩

/-- The `ClientState.playing` branch of `onMessage`: `:attempt <word>`
claims a word (a missing argument raises an uncaught `IndexError`),
`:giveup` and `:ungiveup` maintain the give-up set; `ValueError` and
`AttributeError` are swallowed by the surrounding `except`. -/
def handlePlaying (g : GlobalState) (s : Session) (msg : String) : StepResult :=
  let smsg := pySplit1 msg
  if smsg.1 = ":attempt" then
    match smsg.2 with
    | none => ⟨g, s, [], .raised .indexError⟩
    | some word =>
      match s.lobby with
      | none => ⟨g, s, [], .normal⟩
      | some ref =>
        match dictGet ref g.heap with
        | none => ⟨g, s, [.acquire (.lobbyLock ref)], .raised .danglingRef⟩
        | some lb =>
          match s.name with
          | none => ⟨g, s, [.acquire (.lobbyLock ref)], .normal⟩
          | some nm =>
            let words1 :=
              match dictGet word lb.words with
              | none => lb.words
              | some none => dictSet word (some nm) lb.words
              | some (some _) => lb.words
            ⟨heapSet ref { lb with words := words1 } g, s,
             [.acquire (.lobbyLock ref)] ++
               announceMsg { lb with words := words1 } nm
                 (":attempt " ++ word ++ " " ++ nm) false, .normal⟩
  else if smsg.1 = ":giveup" then
    match s.lobby with
    | none => ⟨g, s, [], .normal⟩
    | some ref =>
      match dictGet ref g.heap with
      | none => ⟨g, s, [.acquire (.lobbyLock ref)], .raised .danglingRef⟩
      | some lb =>
        match s.name with
        | none => ⟨g, s, [.acquire (.lobbyLock ref)], .normal⟩
        | some nm =>
          let lb1 := { lb with giveups := setAdd nm lb.giveups }
          let cg := check_giveup lb1 nm
          ⟨heapSet ref lb1 g, s,
           [.acquire (.lobbyLock ref)] ++
             announceMsg lb1 nm (":giveup " ++ nm) false ++ cg.2, .normal⟩
  else if smsg.1 = ":ungiveup" then
    match s.lobby with
    | none => ⟨g, s, [], .normal⟩
    | some ref =>
      match dictGet ref g.heap with
      | none => ⟨g, s, [.acquire (.lobbyLock ref)], .raised .danglingRef⟩
      | some lb =>
        match s.name with
        | none => ⟨g, s, [.acquire (.lobbyLock ref)], .normal⟩
        | some nm =>
          let lb1 := { lb with giveups := setDiscard nm lb.giveups }
          ⟨heapSet ref lb1 g, s,
           [.acquire (.lobbyLock ref)] ++
             announceMsg lb1 nm (":ungiveup " ++ nm) false, .normal⟩
  else ⟨g, s, [], .normal⟩

/-- `onMessage` from the source: binary frames are ignored; text frames
are dispatched on the session's current phase. -/
def onMessage (g : GlobalState) (s : Session) (draws : List Nat) (isBinary : Bool)
    (msg : String) : StepResult :=
  if isBinary then ⟨g, s, [], .normal⟩
  else
    match s.clientState with
    | .justConnected => handleJustConnected g s draws msg
    | .receivingWords => handleReceivingWords g s msg
    | .gettingName => handleGettingName g s msg
    | .playing => handlePlaying g s msg

/-- `onClose` from the source: only a session in the playing phase touches
shared state; it marks itself disconnected, drops its give-up vote, then
either broadcasts `:quit` and re-checks unanimity, or (when no connected
player remains) deletes the lobby from the registry — acquiring the
registry lock while already holding the lobby lock. -/
def onClose (g : GlobalState) (s : Session) : StepResult :=
  if s.clientState = .playing then
    match s.lobby with
    | none => ⟨g, s, [], .raised .attributeError⟩
    | some ref =>
      match dictGet ref g.heap with
      | none => ⟨g, s, [.acquire (.lobbyLock ref)], .raised .danglingRef⟩
      | some lb =>
        match s.name with
        | none => ⟨g, s, [.acquire (.lobbyLock ref)], .raised .attributeError⟩
        | some nm =>
          let lb1 := { lb with
                       players := dictSet nm none lb.players
                       giveups := setDiscard nm lb.giveups }
          let g1 := heapSet ref lb1 g
          if lb1.players.any (fun pc => pc.2.isSome) then
            let cg := check_giveup lb1 nm
            ⟨g1, s, [.acquire (.lobbyLock ref)] ++
               announceMsg lb1 nm (":quit " ++ nm) true ++ cg.2, .normal⟩
          else
            match s.lobbyname with
            | none => ⟨g1, s, [.acquire (.lobbyLock ref), .acquire .registry],
                       .raised .attributeError⟩
            | some ln =>
              match dictGet ln g1.lobbies with
              | none => ⟨g1, s, [.acquire (.lobbyLock ref), .acquire .registry],
                         .raised .keyError⟩
              | some _ =>
                ⟨{ g1 with lobbies := dictDel ln g1.lobbies }, s,
                 [.acquire (.lobbyLock ref), .acquire .registry], .normal⟩
  else ⟨g, s, [], .normal⟩

/-- Messages sent to connection `c`, in order, within an event trace. -/
def sentTo (c : ConnId) (evs : List Event) : List String :=
  evs.filterMap (fun e =>
    match e with
    | .send c2 m => if c2 = c then some m else none
    | _ => none)

/-- The mutex acquisitions of an event trace, in order. -/
def acquires (evs : List Event) : List LockTag :=
  evs.filterMap (fun e =>
    match e with
    | .acquire l => some l
    | _ => none)

/-! General lemmas about the embedded data structures. -/

theorem dictGet_dictSet {α β : Type} [DecidableEq α] (k k' : α) (v : β) (l : List (α × β)) :
    dictGet k' (dictSet k v l) = if k' = k then some v else dictGet k' l := by
  induction l with
  | nil =>
    simp only [dictSet, dictGet]
    by_cases h : k' = k
    · simp [h]
    · simp [h, show ¬(k = k') from fun hh => h hh.symm]
  | cons hd tl ih =>
    obtain ⟨k2, v2⟩ := hd
    simp only [dictSet]
    by_cases hk2 : k2 = k
    · subst hk2
      by_cases h : k' = k2
      · subst h
        simp [dictGet]
      · simp [dictGet, h, show ¬(k2 = k') from fun hh => h hh.symm]
    · rw [if_neg hk2]
      by_cases h2 : k2 = k'
      · subst h2
        simp [dictGet, hk2]
      · simp [dictGet, h2, ih]

theorem dictGet_dictDel {α β : Type} [DecidableEq α] (k k' : α) (l : List (α × β)) :
    dictGet k' (dictDel k l) = if k' = k then none else dictGet k' l := by
  induction l with
  | nil => simp [dictGet, dictDel]
  | cons hd tl ih =>
    obtain ⟨k2, v2⟩ := hd
    by_cases hk2 : k2 = k
    · subst hk2
      by_cases h : k' = k2
      · subst h
        simp only [dictDel, List.filter_cons] at ih ⊢
        simpa [dictGet] using ih
      · simp only [dictDel, List.filter_cons] at ih ⊢
        simp only [dictGet, ne_eq, if_neg (show ¬(k2 = k') from fun hh => h hh.symm)] at ih ⊢
        simpa [h] using ih
    · by_cases h2 : k2 = k'
      · subst h2
        simp only [dictDel, List.filter_cons] at ih ⊢
        simp [dictGet, hk2, Ne.symm hk2, ih]
      · simp only [dictDel, List.filter_cons, ne_eq, decide_not] at ih ⊢
        simp [dictGet, hk2, h2, ih]

theorem mem_announceMsg (lb : Lobby) (selfName msg : String) (toSelf : Bool)
    (c : ConnId) (m : String) :
    Event.send c m ∈ announceMsg lb selfName msg toSelf ↔
      m = msg ∧ ∃ p, (p, some c) ∈ lb.players ∧ ((p ≠ selfName) || toSelf) = true := by
  unfold announceMsg
  rw [List.mem_filterMap]
  constructor
  · rintro ⟨pc, hmem, hf⟩
    obtain ⟨p, oc⟩ := pc
    match oc with
    | none => simp at hf
    | some c2 =>
      simp only at hf
      by_cases hcond : ((p ≠ selfName) || toSelf) = true
      · rw [if_pos hcond] at hf
        have h1 := Option.some.inj hf
        injection h1 with hc hm
        subst hc; subst hm
        exact ⟨rfl, p, hmem, hcond⟩
      · rw [if_neg hcond] at hf
        exact absurd hf (by simp)
  · rintro ⟨hm, p, hmem, hcond⟩
    subst hm
    exact ⟨(p, some c), hmem, if_pos hcond⟩

theorem sentTo_append (c : ConnId) (a b : List Event) :
    sentTo c (a ++ b) = sentTo c a ++ sentTo c b := by
  simp [sentTo, List.filterMap_append]

theorem sentTo_map_send {α : Type} (c : ConnId) (l : List α) (f : α → String) :
    sentTo c (l.map fun x => Event.send c (f x)) = l.map f := by
  induction l with
  | nil => simp [sentTo]
  | cons hd tl ih =>
    simp only [sentTo, List.map_cons, List.filterMap_cons] at ih ⊢
    simpa using ih

theorem sentTo_eq_nil (c : ConnId) (evs : List Event) (h : ∀ m, Event.send c m ∉ evs) :
    sentTo c evs = [] := by
  rw [sentTo, List.filterMap_eq_nil_iff]
  intro e he
  match e with
  | .close t => rfl
  | .acquire l => rfl
  | .send c2 m =>
    simp only
    rw [if_neg]
    intro hc; subst hc; exact h m he

theorem giveup_msg_ne_allgiveup (nm : String) : ":giveup " ++ nm ≠ ":allgiveup" := by
  obtain ⟨l⟩ := nm
  intro h
  have h2 : (":giveup " ++ String.mk l).data = (":allgiveup").data := congrArg String.data h
  have h3 : (':' :: 'g' :: 'i' :: 'v' :: 'e' :: 'u' :: 'p' :: ' ' :: l) =
      (':' :: 'a' :: 'l' :: 'l' :: 'g' :: 'i' :: 'v' :: 'e' :: 'u' :: 'p' :: []) := h2
  have h4 := (List.cons.injEq _ _ _ _).mp h3
  have h5 := (List.cons.injEq _ _ _ _).mp h4.2
  exact absurd h5.1 (by decide)

theorem ungiveup_msg_ne_allgiveup (nm : String) : ":ungiveup " ++ nm ≠ ":allgiveup" := by
  obtain ⟨l⟩ := nm
  intro h
  have h2 : (":ungiveup " ++ String.mk l).data = (":allgiveup").data := congrArg String.data h
  have h3 : (':' :: 'u' :: 'n' :: 'g' :: 'i' :: 'v' :: 'e' :: 'u' :: 'p' :: ' ' :: l) =
      (':' :: 'a' :: 'l' :: 'l' :: 'g' :: 'i' :: 'v' :: 'e' :: 'u' :: 'p' :: []) := h2
  have h4 := (List.cons.injEq _ _ _ _).mp h3
  have h5 := (List.cons.injEq _ _ _ _).mp h4.2
  exact absurd h5.1 (by decide)

theorem join_msg_ne_allgiveup (nm : String) : ":join " ++ nm ≠ ":allgiveup" := by
  obtain ⟨l⟩ := nm
  intro h
  have h2 : (":join " ++ String.mk l).data = (":allgiveup").data := congrArg String.data h
  have h3 : (':' :: 'j' :: 'o' :: 'i' :: 'n' :: ' ' :: l) =
      (':' :: 'a' :: 'l' :: 'l' :: 'g' :: 'i' :: 'v' :: 'e' :: 'u' :: 'p' :: []) := h2
  have h4 := (List.cons.injEq _ _ _ _).mp h3
  have h5 := (List.cons.injEq _ _ _ _).mp h4.2
  exact absurd h5.1 (by decide)

theorem splitAtFirstSpace_append (a b : List Char) (ha : ' ' ∉ a) :
    splitAtFirstSpace (a ++ ' ' :: b) = some (a, b) := by
  induction a with
  | nil => simp [splitAtFirstSpace]
  | cons c cs ih =>
    simp only [List.cons_append, splitAtFirstSpace, List.append_eq]
    rw [if_neg, ih (fun h => ha (List.mem_cons_of_mem _ h))]
    exact fun h => ha (h ▸ List.mem_cons_self _ _)

theorem pySplit1_token_space (t rest : String) (ht : ' ' ∉ t.data) :
    pySplit1 (t ++ " " ++ rest) = (t, some rest) := by
  obtain ⟨a⟩ := t
  obtain ⟨b⟩ := rest
  have hd : (String.mk a ++ " " ++ String.mk b).data = a ++ (' ' :: b) := by
    show (a ++ [' ']) ++ b = a ++ (' ' :: b)
    simp
  unfold pySplit1
  rw [hd, splitAtFirstSpace_append a b ht]

/-! Sample states used by the concrete counterexample and witness runs. -/

/-- The empty registry at process start. -/
def gInit : GlobalState := ⟨[], [], 0⟩

/-- A freshly opened connection (id 0). -/
def sJC0 : Session := ⟨0, .justConnected, none, none, none⟩

/-- A playing session whose lobby reference is populated. -/
def sPL0 : Session := ⟨0, .playing, some "alice", some "7", some 0⟩

/-- State after connection 0 hosted a lobby with name alice (random draw 7). -/
def c2runA : StepResult := onMessage gInit sJC0 [7] false ":host alice"

/-- A lobby whose host alice finished submitting words cat and dog, dog
pre-solved. -/
def lbC3 : Lobby := ⟨[("alice", some 0)], [("cat", none), ("dog", some "alice")], []⟩

/-- Global state holding only `lbC3` under id 7. -/
def gC3 : GlobalState := ⟨[(0, lbC3)], [("7", 0)], 1⟩

/-- Connection 1 joining lobby 7, about to submit its name. -/
def sC3 : Session := ⟨1, .gettingName, none, some "7", some 0⟩

/-- A one-player lobby (alice connected, no words). -/
def lbC4 : Lobby := ⟨[("alice", some 0)], [], []⟩

/-- Global state holding only `lbC4` under id 7. -/
def gC4 : GlobalState := ⟨[(0, lbC4)], [("7", 0)], 1⟩

/-- Alice playing alone in `lbC4`. -/
def sC4 : Session := ⟨0, .playing, some "alice", some "7", some 0⟩

/-- Alice sends her first `:giveup`. -/
def c4run1 : StepResult := onMessage gC4 sC4 [] false ":giveup"

/-- Alice repeats `:giveup` while unanimity still holds. -/
def c4run2 : StepResult := onMessage c4run1.g c4run1.s [] false ":giveup"

/-- A two-player lobby where dog is already solved by alice. -/
def lbC5 : Lobby := ⟨[("alice", some 0), ("bob", some 1)], [("dog", some "alice")], []⟩

/-- Global state holding only `lbC5` under id 7. -/
def gC5 : GlobalState := ⟨[(0, lbC5)], [("7", 0)], 1⟩

/-- Bob playing in `lbC5` over connection 1. -/
def sC5 : Session := ⟨1, .playing, some "bob", some "7", some 0⟩

/-- A freshly created empty lobby under id 7. -/
def gW2 : GlobalState := ⟨[(0, ⟨[], [], []⟩)], [("7", 0)], 1⟩

/-- Host alice submitting words into the lobby of `gW2`. -/
def sHostW2 : Session := ⟨0, .receivingWords, some "alice", some "7", some 0⟩

/-- Host submits the pre-solved word line dog y. -/
def c6run1 : StepResult := onMessage gW2 sHostW2 [] false "dog y"

/-- Host then resubmits dog without the y marker. -/
def c6run2 : StepResult := onMessage c6run1.g c6run1.s [] false "dog"

/-- A lobby under id 42 whose only connected player is alice. -/
def lbC9 : Lobby := ⟨[("alice", some 0)], [], []⟩

/-- Global state holding only `lbC9` at heap reference 5. -/
def gC9 : GlobalState := ⟨[(5, lbC9)], [("42", 5)], 6⟩

/-- Alice, the last connected player of lobby 42, in the playing phase. -/
def sC9 : Session := ⟨0, .playing, some "alice", some "42", some 5⟩

/-- Registry state after the only remaining player of lobby 42 disconnects. -/
def gDelW : GlobalState := ⟨[(5, ⟨[("alice", some 0)], [], []⟩)], [("42", 5)], 6⟩

/-- Session used for the lobby-deletion witness run. -/
def sAliceW : Session := ⟨0, .playing, some "alice", some "42", some 5⟩

/-! Claim C1. -/

/-- Claim C1 counterexample: in JustConnected, the message `:host` with no
argument does not complete without raising: `smsg[1]` raises an
`IndexError` that the surrounding `except ValueError` does not catch (the
same happens for `:join` and for `:attempt` in Playing), refuting the
claim that every malformed message is handled without raising. -/
theorem c1_counterexample :
    onMessage gInit sJC0 [] false ":host" = ⟨gInit, sJC0, [], .raised .indexError⟩ := by
  decide

/-- Claim C1 (amended): a message whose command word is not recognised for
the current phase is silently ignored (no reply, no close, no state
change); a recognised command word with its required argument missing
(`:host` or `:join` in JustConnected, `:attempt` in Playing) raises an
uncaught IndexError, still with no reply, no close and no state change. -/
theorem c1_malformed (g : GlobalState) (s : Session) (draws : List Nat) (msg : String) :
    (s.clientState = .justConnected → (pySplit1 msg).1 ≠ ":host" → (pySplit1 msg).1 ≠ ":join" →
      onMessage g s draws false msg = ⟨g, s, [], .normal⟩) ∧
    (s.clientState = .justConnected →
      ((pySplit1 msg).1 = ":host" ∨ (pySplit1 msg).1 = ":join") → (pySplit1 msg).2 = none →
      onMessage g s draws false msg = ⟨g, s, [], .raised .indexError⟩) ∧
    (s.clientState = .playing → (pySplit1 msg).1 ≠ ":attempt" → (pySplit1 msg).1 ≠ ":giveup" →
      (pySplit1 msg).1 ≠ ":ungiveup" →
      onMessage g s draws false msg = ⟨g, s, [], .normal⟩) ∧
    (s.clientState = .playing → (pySplit1 msg).1 = ":attempt" → (pySplit1 msg).2 = none →
      onMessage g s draws false msg = ⟨g, s, [], .raised .indexError⟩) := by
  refine ⟨?_, ?_, ?_, ?_⟩
  · intro hcs h1 h2
    simp only [onMessage, hcs, Bool.false_eq_true, if_false]
    unfold handleJustConnected
    simp [h1, h2]
  · intro hcs h1 h2
    simp only [onMessage, hcs, Bool.false_eq_true, if_false]
    unfold handleJustConnected
    rcases h1 with h1 | h1
    · simp [h1, h2]
    · simp [h1, h2]
  · intro hcs h1 h2 h3
    simp only [onMessage, hcs, Bool.false_eq_true, if_false]
    unfold handlePlaying
    simp [h1, h2, h3]
  · intro hcs h1 h2
    simp only [onMessage, hcs, Bool.false_eq_true, if_false]
    unfold handlePlaying
    simp [h1, h2]

/-- Claim C1 witness: concrete instances of the amended claim, covering an
ignored unknown command in each phase and the raising missing-argument
case. -/
theorem c1_witness :
    onMessage gInit sJC0 [] false "hello" = ⟨gInit, sJC0, [], .normal⟩ ∧
    onMessage gInit sPL0 [] false ":quit x" = ⟨gInit, sPL0, [], .normal⟩ ∧
    onMessage gInit sPL0 [] false ":attempt" = ⟨gInit, sPL0, [], .raised .indexError⟩ := by
  refine ⟨?_, ?_, ?_⟩
  · exact (c1_malformed gInit sJC0 [] "hello").1 rfl (by decide) (by decide)
  · exact (c1_malformed gInit sPL0 [] ":quit x").2.2.1 rfl (by decide) (by decide) (by decide)
  · exact (c1_malformed gInit sPL0 [] ":attempt").2.2.2 rfl (by decide) (by decide)

/-! Claim C2. -/

/-- Claim C2 counterexample: a host creates a lobby and disconnects while
still in ReceivingWords; `onClose` does nothing outside the Playing phase,
so the lobby stays registered under id 7 although its players mapping has
no connected entry and its only live connection is gone — refuting removal
at the first moment the lobby has no connected player, regardless of
phase. -/
theorem c2_counterexample :
    c2runA.outcome = .normal ∧ c2runA.s.clientState = .receivingWords ∧
    onClose c2runA.g c2runA.s = ⟨c2runA.g, c2runA.s, [], .normal⟩ ∧
    dictGet "7" c2runA.g.lobbies = some 0 ∧
    (dictGet 0 c2runA.g.heap).map Lobby.players = some [] := by
  decide

/-- Claim C2 (amended): the registry entry of a lobby is removed only by a
Playing-phase disconnect after which no connected player remains; a
disconnect in any other phase changes nothing, so a lobby whose host never
sent `:endwords` stays registered forever. When the last connected player
does disconnect in Playing, the entry under the session's lobby id is
deleted and a later `:join` with an unregistered id gets `:nolobby` and a
close. -/
theorem c2_amended (g : GlobalState) (s : Session) :
    (s.clientState ≠ .playing → onClose g s = ⟨g, s, [], .normal⟩) ∧
    (∀ ref lb nm ln, s.clientState = .playing → s.lobby = some ref →
      dictGet ref g.heap = some lb → s.name = some nm → s.lobbyname = some ln →
      (((dictSet nm none lb.players).any (fun pc => pc.2.isSome)) = true →
        (onClose g s).g.lobbies = g.lobbies) ∧
      (((dictSet nm none lb.players).any (fun pc => pc.2.isSome)) = false →
        ∀ r0, dictGet ln g.lobbies = some r0 →
        (onClose g s).g.lobbies = dictDel ln g.lobbies ∧
        dictGet ln (onClose g s).g.lobbies = none ∧ (onClose g s).outcome = .normal)) ∧
    (∀ g2 s2 arg draws, s2.clientState = .justConnected → dictGet arg g2.lobbies = none →
      onMessage g2 s2 draws false (":join " ++ arg) =
        ⟨g2, { s2 with lobbyname := some arg },
         [.acquire .registry, .send s2.conn ":nolobby", .close s2.conn], .normal⟩) := by
  refine ⟨?_, ?_, ?_⟩
  · intro hcs
    unfold onClose
    simp [hcs]
  · intro ref lb nm ln hcs href hlb hnm hln
    unfold onClose
    simp only [hcs, if_pos, href, hlb, hnm, hln]
    constructor
    · intro hany
      simp only [hany, if_pos]
      simp [heapSet]
    · intro hany r0 hr0
      simp only [hany, Bool.false_eq_true, if_false]
      have hget : dictGet ln (heapSet ref
          { lb with
            players := dictSet nm none lb.players
            giveups := setDiscard nm lb.giveups } g).lobbies = some r0 := hr0
      rw [hget]
      refine ⟨rfl, ?_, rfl⟩
      simp [heapSet, dictGet_dictDel]
  · intro g2 s2 arg draws hcs hget
    have hsplit : pySplit1 (":join " ++ arg) = (":join", some arg) :=
      pySplit1_token_space ":join" arg (by decide)
    simp only [onMessage, hcs, Bool.false_eq_true, if_false]
    unfold handleJustConnected
    rw [hsplit]
    simp [hget, hcs]

/-- Claim C2 witness: concrete instances of the amended claim — a
non-Playing disconnect leaves everything unchanged, the last-player
disconnect of lobby 42 removes it from the registry, and a `:join` to an
unknown id is answered with `:nolobby` and a close. -/
theorem c2_witness :
    onClose gInit sJC0 = ⟨gInit, sJC0, [], .normal⟩ ∧
    ((onClose gDelW sAliceW).g.lobbies = dictDel "42" gDelW.lobbies ∧
      dictGet "42" (onClose gDelW sAliceW).g.lobbies = none ∧
      (onClose gDelW sAliceW).outcome = .normal) ∧
    onMessage gInit sJC0 [] false (":join " ++ "42") =
      ⟨gInit, { sJC0 with lobbyname := some "42" },
       [.acquire .registry, .send sJC0.conn ":nolobby", .close sJC0.conn], .normal⟩ := by
  refine ⟨?_, ?_, ?_⟩
  · exact (c2_amended gInit sJC0).1 (by decide)
  · exact ((c2_amended gDelW sAliceW).2.1 5 ⟨[("alice", some 0)], [], []⟩ "alice" "42"
      rfl rfl (by decide) rfl rfl).2 (by decide) 5 (by decide)
  · exact (c2_amended gInit sJC0).2.2 gInit sJC0 "42" [] rfl (by decide)

/-! Claim C3. -/

/-- Claim C3 counterexample: joining the lobby whose words are cat then
dog (dog solved by alice), bob receives cat, dog, `:endwords`, and only
then `:attempt dog alice` — the code sends `:endwords` before the solved
-word catch-up messages, refuting the claimed order words, attempts,
`:endwords`. -/
theorem c3_counterexample :
    sentTo 1 (onMessage gC3 sC3 [] false "bob").evs =
      ["cat", "dog", ":endwords", ":attempt dog alice"] ∧
    sentTo 1 (onMessage gC3 sC3 [] false "bob").evs ≠
      ["cat", "dog", ":attempt dog alice", ":endwords"] := by
  decide

/-- Claim C3 (amended): an accepted joiner receives every word key of the
lobby, one message each, in the host's submission order regardless of
solve state; then `:endwords`; then one `:attempt <word> <answerer>` per
already-solved word; then one `:giveup <name>` per name in the give-up
set. -/
theorem c3_joiner_catchup (g : GlobalState) (s : Session) (draws : List Nat)
    (ref : LobbyRef) (lb : Lobby) (nm : String)
    (hcs : s.clientState = .gettingName) (href : s.lobby = some ref)
    (hlb : dictGet ref g.heap = some lb)
    (hv : validateName nm = true)
    (hdup : ((dictGet nm lb.players).bind id).isSome = false)
    (hconn : ∀ p oc, (p, oc) ∈ lb.players → oc ≠ some s.conn) :
    sentTo s.conn (onMessage g s draws false nm).evs =
      lb.words.map (fun wa => wa.1) ++ [":endwords"] ++
      (lb.words.filterMap (fun wa => wa.2.map (fun ans => (wa.1, ans)))).map
        (fun wa => ":attempt " ++ wa.1 ++ " " ++ wa.2) ++
      lb.giveups.map (fun gp => ":giveup " ++ gp) := by
  simp only [onMessage, hcs, Bool.false_eq_true, if_false]
  unfold handleGettingName
  simp only [href, hlb, hv, hdup]
  have hno : ∀ (msg2 : String) (toSelf : Bool),
      sentTo s.conn (announceMsg lb nm msg2 toSelf) = [] := by
    intro msg2 toSelf
    apply sentTo_eq_nil
    intro m hm
    rw [mem_announceMsg] at hm
    obtain ⟨-, p, hp, -⟩ := hm
    exact hconn p (some s.conn) hp rfl
  simp only [Bool.or_eq_true, decide_eq_true_eq]
  rw [if_neg (by simp [hv, hdup])]
  simp only [check_giveup]
  by_cases hcg : lb.giveups.length ≥ connectedCount lb
  · rw [if_pos hcg]
    simp only [sentTo_append, sentTo_map_send, hno]
    simp [sentTo]
  · rw [if_neg hcg]
    simp only [sentTo_append, sentTo_map_send, hno]
    simp [sentTo]

/-- Claim C3 witness: the amended catch-up order at the concrete lobby
`lbC3` with joiner bob. -/
theorem c3_witness :
    sentTo 1 (onMessage gC3 sC3 [] false "bob").evs =
      lbC3.words.map (fun wa => wa.1) ++ [":endwords"] ++
      (lbC3.words.filterMap (fun wa => wa.2.map (fun ans => (wa.1, ans)))).map
        (fun wa => ":attempt " ++ wa.1 ++ " " ++ wa.2) ++
      lbC3.giveups.map (fun gp => ":giveup " ++ gp) :=
  c3_joiner_catchup gC3 sC3 [] 0 lbC3 "bob" rfl rfl (by decide) (by decide) (by decide)
    (by
      intro p oc h
      simp only [lbC3] at h
      rw [List.mem_singleton, Prod.mk.injEq] at h
      rw [h.2]
      decide)

/-! Claim C4. -/

/-- Claim C4 counterexample: alice, alone in her lobby, sends `:giveup`
twice; she receives `:allgiveup` after each one, although unanimity was
reached at the first and no `:ungiveup` intervened — refuting that
`:allgiveup` is received exactly once per unanimity episode. -/
theorem c4_counterexample :
    sentTo 0 c4run1.evs = [":allgiveup"] ∧
    sentTo 0 c4run2.evs = [":allgiveup"] := by
  decide

/-- Claim C4 (amended): a `:giveup` message broadcasts `:allgiveup` to
every connected player (the sender included) exactly when the give-up set
after the addition is at least as large as the number of connected
players — so at the step unanimity is first reached, but also again on
every repeated `:giveup` while unanimity keeps holding; `:ungiveup` never
broadcasts `:allgiveup`, so after unanimity is broken none is sent until
the condition is reached again. -/
theorem c4_allgiveup_each_unanimous (g : GlobalState) (s : Session) (draws : List Nat)
    (ref : LobbyRef) (lb : Lobby) (nm : String)
    (hcs : s.clientState = .playing) (href : s.lobby = some ref)
    (hlb : dictGet ref g.heap = some lb) (hnm : s.name = some nm) :
    (∀ c, Event.send c ":allgiveup" ∈ (onMessage g s draws false ":giveup").evs ↔
      ((setAdd nm lb.giveups).length ≥ connectedCount lb ∧ ∃ p, (p, some c) ∈ lb.players)) ∧
    (∀ c, Event.send c ":allgiveup" ∉ (onMessage g s draws false ":ungiveup").evs) := by
  constructor
  · intro c
    simp only [onMessage, hcs, Bool.false_eq_true, if_false]
    unfold handlePlaying
    have hsp : pySplit1 ":giveup" = (":giveup", none) := by decide
    rw [hsp]
    simp only [href, hlb, hnm]
    rw [if_neg (by decide), if_pos (by decide)]
    simp only [check_giveup]
    have hcc : connectedCount
        { players := lb.players, words := lb.words, giveups := setAdd nm lb.giveups } =
        connectedCount lb := rfl
    rw [hcc]
    by_cases hcg : (setAdd nm lb.giveups).length ≥ connectedCount lb
    · rw [if_pos hcg]
      simp only [List.mem_append, List.mem_singleton]
      constructor
      · rintro ((h | h) | h)
        · exact absurd h (by simp)
        · rw [mem_announceMsg] at h
          exact absurd h.1 (giveup_msg_ne_allgiveup nm).symm
        · rw [mem_announceMsg] at h
          obtain ⟨-, p, hp, -⟩ := h
          exact ⟨hcg, p, hp⟩
      · rintro ⟨-, p, hp⟩
        right
        rw [mem_announceMsg]
        exact ⟨rfl, p, hp, by simp⟩
    · rw [if_neg hcg]
      simp only [List.append_nil, List.mem_append, List.mem_singleton]
      constructor
      · rintro (h | h)
        · exact absurd h (by simp)
        · rw [mem_announceMsg] at h
          exact absurd h.1 (giveup_msg_ne_allgiveup nm).symm
      · rintro ⟨hc, -⟩
        exact absurd hc hcg
  · intro c
    simp only [onMessage, hcs, Bool.false_eq_true, if_false]
    unfold handlePlaying
    have hsp : pySplit1 ":ungiveup" = (":ungiveup", none) := by decide
    rw [hsp]
    simp only [href, hlb, hnm]
    rw [if_neg (by decide), if_neg (by decide), if_pos (by decide)]
    intro h
    simp only [List.mem_append, List.mem_singleton] at h
    rcases h with h | h
    · exact absurd h (by simp)
    · rw [mem_announceMsg] at h
      exact absurd h.1 (ungiveup_msg_ne_allgiveup nm).symm

/-- Claim C4 witness: in the one-player lobby `lbC4`, alice's `:giveup`
does send her `:allgiveup`, and her `:ungiveup` sends none to anyone. -/
theorem c4_witness :
    Event.send 0 ":allgiveup" ∈ (onMessage gC4 sC4 [] false ":giveup").evs ∧
    (∀ c, Event.send c ":allgiveup" ∉ (onMessage gC4 sC4 [] false ":ungiveup").evs) := by
  have h := c4_allgiveup_each_unanimous gC4 sC4 [] 0 lbC4 "alice" rfl rfl (by decide) rfl
  refine ⟨?_, h.2⟩
  exact (h.1 0).mpr ⟨by decide, "alice", by decide⟩

/-! Claim C5. -/

/-- Claim C5 (confirmed): for `:attempt <word>` in Playing, an unknown
word leaves the words mapping unchanged, a known unsolved word gets the
attempter recorded as answerer, a known solved word is unchanged; in all
three cases `:attempt <word> <attempterName>` is broadcast to exactly the
other connected players (never the attempter), with no change to players,
give-ups, session or registry. -/
theorem c5_attempt_semantics (g : GlobalState) (s : Session) (draws : List Nat)
    (ref : LobbyRef) (lb : Lobby) (nm word : String)
    (hcs : s.clientState = .playing) (href : s.lobby = some ref)
    (hlb : dictGet ref g.heap = some lb) (hnm : s.name = some nm) :
    ∃ lb' : Lobby,
      onMessage g s draws false (":attempt " ++ word) =
        ⟨heapSet ref lb' g, s,
         [.acquire (.lobbyLock ref)] ++
           announceMsg lb' nm (":attempt " ++ word ++ " " ++ nm) false, .normal⟩ ∧
      lb'.players = lb.players ∧ lb'.giveups = lb.giveups ∧
      (dictGet word lb.words = none → lb'.words = lb.words) ∧
      (dictGet word lb.words = some none → lb'.words = dictSet word (some nm) lb.words) ∧
      (∀ a, dictGet word lb.words = some (some a) → lb'.words = lb.words) ∧
      (∀ c m, Event.send c m ∈ announceMsg lb' nm (":attempt " ++ word ++ " " ++ nm) false ↔
        (m = ":attempt " ++ word ++ " " ++ nm ∧ ∃ p, (p, some c) ∈ lb.players ∧ p ≠ nm)) := by
  have hsplit : pySplit1 (":attempt " ++ word) = (":attempt", some word) :=
    pySplit1_token_space ":attempt" word (by decide)
  simp only [onMessage, hcs, Bool.false_eq_true, if_false]
  unfold handlePlaying
  rw [hsplit]
  simp only [href, hlb, hnm]
  refine ⟨{ lb with words := match dictGet word lb.words with
            | none => lb.words
            | some none => dictSet word (some nm) lb.words
            | some (some _) => lb.words }, ?_, rfl, rfl, ?_, ?_, ?_, ?_⟩
  · simp
  · intro h
    simp only [h]
  · intro h
    simp only [h]
  · intro a h
    simp only [h]
  · intro c m
    rw [mem_announceMsg]
    simp

/-- Claim C5 witness: bob attempts the already-solved word dog in the
two-player lobby `lbC5`. -/
theorem c5_witness :
    ∃ lb' : Lobby,
      onMessage gC5 sC5 [] false (":attempt " ++ "dog") =
        ⟨heapSet 0 lb' gC5, sC5,
         [.acquire (.lobbyLock 0)] ++
           announceMsg lb' "bob" (":attempt " ++ "dog" ++ " " ++ "bob") false, .normal⟩ ∧
      lb'.players = lbC5.players ∧ lb'.giveups = lbC5.giveups ∧
      (dictGet "dog" lbC5.words = none → lb'.words = lbC5.words) ∧
      (dictGet "dog" lbC5.words = some none →
        lb'.words = dictSet "dog" (some "bob") lbC5.words) ∧
      (∀ a, dictGet "dog" lbC5.words = some (some a) → lb'.words = lbC5.words) ∧
      (∀ c m, Event.send c m ∈ announceMsg lb' "bob" (":attempt " ++ "dog" ++ " " ++ "bob") false ↔
        (m = ":attempt " ++ "dog" ++ " " ++ "bob" ∧
          ∃ p, (p, some c) ∈ lbC5.players ∧ p ≠ "bob")) :=
  c5_attempt_semantics gC5 sC5 [] 0 lbC5 "bob" "dog" rfl rfl (by decide) rfl

/-! Claim C6. -/

/-- Every word key present before a step is still present after it. -/
def WordsKeysKept (ws ws' : List (String × Option String)) : Prop :=
  ∀ w v, dictGet w ws = some v → ∃ v', dictGet w ws' = some v'

/-- Every non-null answerer is unchanged by a step. -/
def SolvedKept (ws ws' : List (String × Option String)) : Prop :=
  ∀ w a, dictGet w ws = some (some a) → dictGet w ws' = some (some a)

theorem wordsKeysKept_refl (ws : List (String × Option String)) : WordsKeysKept ws ws :=
  fun _ v h => ⟨v, h⟩

theorem wordsKeysKept_dictSet (w : String) (v : Option String)
    (ws : List (String × Option String)) : WordsKeysKept ws (dictSet w v ws) := by
  intro w' v' h
  rw [dictGet_dictSet]
  by_cases hh : w' = w
  · exact ⟨v, by rw [if_pos hh]⟩
  · exact ⟨v', by rw [if_neg hh, h]⟩

theorem solvedKept_refl (ws : List (String × Option String)) : SolvedKept ws ws :=
  fun _ _ h => h

theorem solvedKept_attempt (word nm : String) (ws : List (String × Option String))
    (hw : dictGet word ws = some none) : SolvedKept ws (dictSet word (some nm) ws) := by
  intro w a h
  rw [dictGet_dictSet]
  by_cases hh : w = word
  · subst hh
    rw [h] at hw
    exact absurd (Option.some.inj hw) (by simp)
  · rw [if_neg hh]
    exact h

theorem exists_dictGet_after_set (heap : List (LobbyRef × Lobby)) (ref ref0 : LobbyRef)
    (lb lb0 lb1 : Lobby) (hlb : dictGet ref heap = some lb)
    (hlb0 : dictGet ref0 heap = some lb0)
    (Q : Lobby → Prop) (h1 : lb = lb0 → Q lb1) (h2 : Q lb) :
    ∃ lb', dictGet ref (dictSet ref0 lb1 heap) = some lb' ∧ Q lb' := by
  rw [dictGet_dictSet]
  by_cases h : ref = ref0
  · subst h
    rw [if_pos rfl]
    rw [hlb] at hlb0
    exact ⟨lb1, rfl, h1 (Option.some.inj hlb0)⟩
  · rw [if_neg h]
    exact ⟨lb, hlb, h2⟩

theorem dictGet_after_fresh (heap : List (LobbyRef × Lobby)) (ref r2 : LobbyRef)
    (lb nl : Lobby) (hlb : dictGet ref heap = some lb) (hfresh : dictGet r2 heap = none) :
    dictGet ref (dictSet r2 nl heap) = some lb := by
  rw [dictGet_dictSet, if_neg]
  · exact hlb
  · intro h
    subst h
    rw [hlb] at hfresh
    cases hfresh

theorem c6aux_jc (g : GlobalState) (s : Session) (draws : List Nat) (msg : String)
    (hfresh : dictGet g.nextRef g.heap = none) (ref : LobbyRef) (lb : Lobby)
    (hlb : dictGet ref g.heap = some lb) :
    ∃ lb', dictGet ref (handleJustConnected g s draws msg).g.heap = some lb' ∧
      lb'.words = lb.words := by
  unfold handleJustConnected
  by_cases h1 : (pySplit1 msg).1 = ":host"
  · rw [if_pos h1]
    cases harg : (pySplit1 msg).2 with
    | none => exact ⟨lb, hlb, rfl⟩
    | some arg =>
      dsimp only
      by_cases hv : validateName arg = false
      · rw [if_pos hv]
        exact ⟨lb, hlb, rfl⟩
      · rw [if_neg hv]
        cases hgen : genLobbyName draws g.lobbies with
        | none => exact ⟨lb, hlb, rfl⟩
        | some ln =>
          exact ⟨lb, dictGet_after_fresh g.heap ref g.nextRef lb _ hlb hfresh, rfl⟩
  · rw [if_neg h1]
    by_cases h2 : (pySplit1 msg).1 = ":join"
    · rw [if_pos h2]
      cases harg : (pySplit1 msg).2 with
      | none => exact ⟨lb, hlb, rfl⟩
      | some arg =>
        dsimp only
        cases hreg : dictGet arg g.lobbies with
        | none => exact ⟨lb, hlb, rfl⟩
        | some ref2 =>
          dsimp only
          cases hlb2 : dictGet ref2 g.heap with
          | none => exact ⟨lb, hlb, rfl⟩
          | some lb2 =>
            dsimp only
            by_cases hemp : lb2.players.isEmpty = true
            · rw [if_pos hemp]
              exact ⟨lb, hlb, rfl⟩
            · rw [if_neg hemp]
              exact ⟨lb, hlb, rfl⟩
    · rw [if_neg h2]
      exact ⟨lb, hlb, rfl⟩

theorem c6aux_rw (g : GlobalState) (s : Session) (msg : String)
    (ref : LobbyRef) (lb : Lobby) (hlb : dictGet ref g.heap = some lb) :
    ∃ lb', dictGet ref (handleReceivingWords g s msg).g.heap = some lb' ∧
      WordsKeysKept lb.words lb'.words := by
  unfold handleReceivingWords
  cases href : s.lobby with
  | none => exact ⟨lb, hlb, wordsKeysKept_refl _⟩
  | some ref0 =>
    dsimp only
    cases hlb0 : dictGet ref0 g.heap with
    | none => exact ⟨lb, hlb, wordsKeysKept_refl _⟩
    | some lb0 =>
      dsimp only
      split
      · cases hnm : s.name with
        | none => exact ⟨lb, hlb, wordsKeysKept_refl _⟩
        | some nm =>
          dsimp only
          cases hln : s.lobbyname with
          | none =>
            exact exists_dictGet_after_set g.heap ref ref0 lb lb0 _ hlb hlb0
              (fun lb' => WordsKeysKept lb.words lb'.words)
              (fun he => by rw [he]; exact wordsKeysKept_refl _)
              (wordsKeysKept_refl _)
          | some ln =>
            exact exists_dictGet_after_set g.heap ref ref0 lb lb0 _ hlb hlb0
              (fun lb' => WordsKeysKept lb.words lb'.words)
              (fun he => by rw [he]; exact wordsKeysKept_refl _)
              (wordsKeysKept_refl _)
      · cases hnm : s.name with
        | none => exact ⟨lb, hlb, wordsKeysKept_refl _⟩
        | some nm =>
          exact exists_dictGet_after_set g.heap ref ref0 lb lb0 _ hlb hlb0
            (fun lb' => WordsKeysKept lb.words lb'.words)
            (fun he => by rw [he]; exact wordsKeysKept_dictSet _ _ _)
            (wordsKeysKept_refl _)

theorem c6aux_gn (g : GlobalState) (s : Session) (msg : String)
    (ref : LobbyRef) (lb : Lobby) (hlb : dictGet ref g.heap = some lb) :
    ∃ lb', dictGet ref (handleGettingName g s msg).g.heap = some lb' ∧
      lb'.words = lb.words := by
  unfold handleGettingName
  cases href : s.lobby with
  | none => exact ⟨lb, hlb, rfl⟩
  | some ref0 =>
    dsimp only
    cases hlb0 : dictGet ref0 g.heap with
    | none => exact ⟨lb, hlb, rfl⟩
    | some lb0 =>
      dsimp only
      split
      · exact ⟨lb, hlb, rfl⟩
      · exact exists_dictGet_after_set g.heap ref ref0 lb lb0 _ hlb hlb0
          (fun lb' => lb'.words = lb.words) (fun he => by rw [he]) rfl

theorem c6aux_pl (g : GlobalState) (s : Session) (msg : String)
    (ref : LobbyRef) (lb : Lobby) (hlb : dictGet ref g.heap = some lb) :
    ∃ lb', dictGet ref (handlePlaying g s msg).g.heap = some lb' ∧
      WordsKeysKept lb.words lb'.words ∧ SolvedKept lb.words lb'.words := by
  unfold handlePlaying
  by_cases h1 : (pySplit1 msg).1 = ":attempt"
  · rw [if_pos h1]
    cases harg : (pySplit1 msg).2 with
    | none => exact ⟨lb, hlb, wordsKeysKept_refl _, solvedKept_refl _⟩
    | some word =>
      dsimp only
      cases href : s.lobby with
      | none => exact ⟨lb, hlb, wordsKeysKept_refl _, solvedKept_refl _⟩
      | some ref0 =>
        dsimp only
        cases hlb0 : dictGet ref0 g.heap with
        | none => exact ⟨lb, hlb, wordsKeysKept_refl _, solvedKept_refl _⟩
        | some lb0 =>
          dsimp only
          cases hnm : s.name with
          | none => exact ⟨lb, hlb, wordsKeysKept_refl _, solvedKept_refl _⟩
          | some nm =>
            dsimp only
            cases hw : dictGet word lb0.words with
            | none =>
              exact exists_dictGet_after_set g.heap ref ref0 lb lb0 _ hlb hlb0
                (fun lb' => WordsKeysKept lb.words lb'.words ∧ SolvedKept lb.words lb'.words)
                (fun he => by
                  rw [he]
                  exact ⟨wordsKeysKept_refl _, solvedKept_refl _⟩)
                ⟨wordsKeysKept_refl _, solvedKept_refl _⟩
            | some oa =>
              cases oa with
              | none =>
                exact exists_dictGet_after_set g.heap ref ref0 lb lb0 _ hlb hlb0
                  (fun lb' => WordsKeysKept lb.words lb'.words ∧ SolvedKept lb.words lb'.words)
                  (fun he => by
                    rw [he]
                    exact ⟨wordsKeysKept_dictSet _ _ _, solvedKept_attempt word nm lb0.words hw⟩)
                  ⟨wordsKeysKept_refl _, solvedKept_refl _⟩
              | some a =>
                exact exists_dictGet_after_set g.heap ref ref0 lb lb0 _ hlb hlb0
                  (fun lb' => WordsKeysKept lb.words lb'.words ∧ SolvedKept lb.words lb'.words)
                  (fun he => by
                    rw [he]
                    exact ⟨wordsKeysKept_refl _, solvedKept_refl _⟩)
                  ⟨wordsKeysKept_refl _, solvedKept_refl _⟩
  · rw [if_neg h1]
    by_cases h2 : (pySplit1 msg).1 = ":giveup"
    · rw [if_pos h2]
      cases href : s.lobby with
      | none => exact ⟨lb, hlb, wordsKeysKept_refl _, solvedKept_refl _⟩
      | some ref0 =>
        dsimp only
        cases hlb0 : dictGet ref0 g.heap with
        | none => exact ⟨lb, hlb, wordsKeysKept_refl _, solvedKept_refl _⟩
        | some lb0 =>
          dsimp only
          cases hnm : s.name with
          | none => exact ⟨lb, hlb, wordsKeysKept_refl _, solvedKept_refl _⟩
          | some nm =>
            exact exists_dictGet_after_set g.heap ref ref0 lb lb0 _ hlb hlb0
              (fun lb' => WordsKeysKept lb.words lb'.words ∧ SolvedKept lb.words lb'.words)
              (fun he => by
                rw [he]
                exact ⟨wordsKeysKept_refl _, solvedKept_refl _⟩)
              ⟨wordsKeysKept_refl _, solvedKept_refl _⟩
    · rw [if_neg h2]
      by_cases h3 : (pySplit1 msg).1 = ":ungiveup"
      · rw [if_pos h3]
        cases href : s.lobby with
        | none => exact ⟨lb, hlb, wordsKeysKept_refl _, solvedKept_refl _⟩
        | some ref0 =>
          dsimp only
          cases hlb0 : dictGet ref0 g.heap with
          | none => exact ⟨lb, hlb, wordsKeysKept_refl _, solvedKept_refl _⟩
          | some lb0 =>
            dsimp only
            cases hnm : s.name with
            | none => exact ⟨lb, hlb, wordsKeysKept_refl _, solvedKept_refl _⟩
            | some nm =>
              exact exists_dictGet_after_set g.heap ref ref0 lb lb0 _ hlb hlb0
                (fun lb' => WordsKeysKept lb.words lb'.words ∧ SolvedKept lb.words lb'.words)
                (fun he => by
                  rw [he]
                  exact ⟨wordsKeysKept_refl _, solvedKept_refl _⟩)
                ⟨wordsKeysKept_refl _, solvedKept_refl _⟩
      · rw [if_neg h3]
        exact ⟨lb, hlb, wordsKeysKept_refl _, solvedKept_refl _⟩

theorem c6aux_close (g : GlobalState) (s : Session)
    (ref : LobbyRef) (lb : Lobby) (hlb : dictGet ref g.heap = some lb) :
    ∃ lb', dictGet ref (onClose g s).g.heap = some lb' ∧ lb'.words = lb.words := by
  unfold onClose
  by_cases hcs : s.clientState = .playing
  · rw [if_pos hcs]
    cases href : s.lobby with
    | none => exact ⟨lb, hlb, rfl⟩
    | some ref0 =>
      dsimp only
      cases hlb0 : dictGet ref0 g.heap with
      | none => exact ⟨lb, hlb, rfl⟩
      | some lb0 =>
        dsimp only
        cases hnm : s.name with
        | none => exact ⟨lb, hlb, rfl⟩
        | some nm =>
          dsimp only
          have base := exists_dictGet_after_set g.heap ref ref0 lb lb0
            ⟨dictSet nm none lb0.players, lb0.words, setDiscard nm lb0.giveups⟩ hlb hlb0
            (fun lb' => lb'.words = lb.words) (fun he => by rw [he]) rfl
          split
          · exact base
          · split
            · exact base
            · split
              · exact base
              · exact base
  · rw [if_neg hcs]
    exact ⟨lb, hlb, rfl⟩

/-- Claim C6 (amended): across every `onMessage` and `onClose` step, word
keys are never removed or renamed, and outside the ReceivingWords phase a
non-null answerer is never reset to null and never overwritten (the
Playing `:attempt` path writes an answerer only into a null slot).  The
exception forced by the counterexample is the ReceivingWords phase itself,
where resubmitting a word overwrites its answerer, including a non-null
one. -/
theorem c6_words_monotone (g : GlobalState) (s : Session) (draws : List Nat)
    (bin : Bool) (msg : String) (hfresh : dictGet g.nextRef g.heap = none)
    (ref : LobbyRef) (lb : Lobby) (hlb : dictGet ref g.heap = some lb) :
    (∃ lb', dictGet ref (onMessage g s draws bin msg).g.heap = some lb' ∧
      WordsKeysKept lb.words lb'.words ∧
      (s.clientState ≠ .receivingWords → SolvedKept lb.words lb'.words)) ∧
    (∃ lb', dictGet ref (onClose g s).g.heap = some lb' ∧ lb'.words = lb.words) := by
  constructor
  · unfold onMessage
    by_cases hbin : bin = true
    · rw [if_pos hbin]
      exact ⟨lb, hlb, wordsKeysKept_refl _, fun _ => solvedKept_refl _⟩
    · rw [if_neg hbin]
      cases hcs : s.clientState with
      | justConnected =>
        dsimp only
        obtain ⟨lb', h1, h2⟩ := c6aux_jc g s draws msg hfresh ref lb hlb
        refine ⟨lb', h1, ?_, fun _ => ?_⟩
        · rw [h2]
          exact wordsKeysKept_refl _
        · rw [h2]
          exact solvedKept_refl _
      | receivingWords =>
        dsimp only
        obtain ⟨lb', h1, h2⟩ := c6aux_rw g s msg ref lb hlb
        exact ⟨lb', h1, h2, fun hne => absurd rfl hne⟩
      | gettingName =>
        dsimp only
        obtain ⟨lb', h1, h2⟩ := c6aux_gn g s msg ref lb hlb
        refine ⟨lb', h1, ?_, fun _ => ?_⟩
        · rw [h2]
          exact wordsKeysKept_refl _
        · rw [h2]
          exact solvedKept_refl _
      | playing =>
        dsimp only
        obtain ⟨lb', h1, h2, h3⟩ := c6aux_pl g s msg ref lb hlb
        exact ⟨lb', h1, h2, fun _ => h3⟩
  · exact c6aux_close g s ref lb hlb


/-- Claim C6 counterexample: the host submits dog y (answerer alice) and
then resubmits dog, resetting the answerer from alice back to null during
the word-submission phase — refuting that an answerer only ever changes
from null to a name across every operation. -/
theorem c6_counterexample :
    (dictGet 0 c6run1.g.heap).map Lobby.words = some [("dog", some "alice")] ∧
    (dictGet 0 c6run2.g.heap).map Lobby.words = some [("dog", none)] := by
  decide

/-- Claim C6 witness: the amended claim applied to the concrete host step
dog y on the empty lobby of `gW2`. -/
theorem c6_witness :
    (∃ lb', dictGet 0 (onMessage gW2 sHostW2 [] false "dog y").g.heap = some lb' ∧
       WordsKeysKept (Lobby.mk [] [] []).words lb'.words ∧
       (sHostW2.clientState ≠ .receivingWords → SolvedKept (Lobby.mk [] [] []).words lb'.words)) ∧
    (∃ lb', dictGet 0 (onClose gW2 sHostW2).g.heap = some lb' ∧
       lb'.words = (Lobby.mk [] [] []).words) :=
  c6_words_monotone gW2 sHostW2 [] false "dog y" (by decide) 0 ⟨[], [], []⟩ (by decide)

/-! Claim C7. -/

/-- Claim C7 counterexample: the empty name has length at most 10 and all
(of its zero) characters alphanumeric, so the claim requires true, but
Python `"".isalnum()` is false and `validateName ""` returns false. -/
theorem c7_counterexample :
    validateName "" = false ∧ "".length ≤ 10 ∧ "".data.all isAlnumChar = true := by
  decide

/-- Claim C7 (amended): `validateName` returns true exactly for the names
of length between 1 and 10 whose characters are all alphanumeric; the
empty string, names longer than 10, and names with a non-alphanumeric
character are rejected. -/
theorem c7_validateName_amended (name : String) :
    validateName name = true ↔
      1 ≤ name.length ∧ name.length ≤ 10 ∧ ∀ c ∈ name.data, isAlnumChar c = true := by
  unfold validateName pyIsAlnum
  simp only [Bool.and_eq_true, decide_eq_true_eq, Bool.not_eq_true', List.isEmpty_eq_false,
    List.all_eq_true, String.length]
  constructor
  · rintro ⟨h1, h2, h3⟩
    refine ⟨?_, h1, h3⟩
    have := List.length_pos.mpr h2
    omega
  · rintro ⟨h1, h2, h3⟩
    refine ⟨h2, ?_, h3⟩
    intro hnil
    rw [hnil] at h1
    simp at h1

/-! Claim C8. -/

/-- Claim C8 (confirmed): when a joiner's name is accepted in GettingName,
give-up unanimity is evaluated on the lobby state before the joiner is in
either the give-up set or the roster; if that pre-join state is unanimous
the joiner's name is added to the give-up set; the `:join <name>`
broadcast reaches exactly the connections of the pre-insert roster (so
never the joiner itself); and the joiner is then inserted into the roster
with its own connection and the session moves to Playing. -/
theorem c8_join_accept_order (g : GlobalState) (s : Session) (draws : List Nat)
    (ref : LobbyRef) (lb : Lobby) (nm : String)
    (hcs : s.clientState = .gettingName) (href : s.lobby = some ref)
    (hlb : dictGet ref g.heap = some lb)
    (hv : validateName nm = true)
    (hdup : ((dictGet nm lb.players).bind id).isSome = false) :
    ∃ lb', dictGet ref (onMessage g s draws false nm).g.heap = some lb' ∧
      lb'.giveups = (if lb.giveups.length ≥ connectedCount lb then setAdd nm lb.giveups
                     else lb.giveups) ∧
      lb'.players = dictSet nm (some s.conn) lb.players ∧
      (onMessage g s draws false nm).s.clientState = .playing ∧
      (onMessage g s draws false nm).outcome = .normal ∧
      (∀ c, c ≠ s.conn →
        (Event.send c (":join " ++ nm) ∈ (onMessage g s draws false nm).evs ↔
          ∃ p, (p, some c) ∈ lb.players)) := by
  have hcond : (decide (validateName nm = false) ||
      ((dictGet nm lb.players).bind id).isSome) = false := by
    rw [hv, hdup]
    rfl
  simp only [onMessage, hcs, Bool.false_eq_true, if_false]
  unfold handleGettingName
  simp only [href, hlb]
  rw [if_neg (by rw [hcond]; simp)]
  simp only [check_giveup]
  by_cases hcg : lb.giveups.length ≥ connectedCount lb
  · simp only [hcg, if_true]
    refine ⟨_, (dictGet_dictSet _ _ _ _).trans (if_pos rfl), rfl, rfl, trivial, trivial, ?_⟩
    intro c hc
    constructor
    · intro hmem
      simp only [List.mem_append, List.mem_singleton, List.mem_map] at hmem
      rcases hmem with ((((((h | h) | h) | h) | h) | h) | h)
      · exact absurd h (by simp)
      · obtain ⟨x, -, hx⟩ := h
        injection hx with h1 h2
        exact absurd h1 (Ne.symm hc)
      · injection h with h1 h2
        exact absurd h1 hc
      · obtain ⟨x, -, hx⟩ := h
        injection hx with h1 h2
        exact absurd h1 (Ne.symm hc)
      · obtain ⟨x, -, hx⟩ := h
        injection hx with h1 h2
        exact absurd h1 (Ne.symm hc)
      · rw [mem_announceMsg] at h
        exact absurd h.1 (join_msg_ne_allgiveup nm)
      · rw [mem_announceMsg] at h
        obtain ⟨-, p, hp, -⟩ := h
        exact ⟨p, hp⟩
    · rintro ⟨p, hp⟩
      simp only [List.mem_append]
      right
      rw [mem_announceMsg]
      exact ⟨rfl, p, hp, by simp⟩
  · simp only [hcg, if_false]
    refine ⟨_, (dictGet_dictSet _ _ _ _).trans (if_pos rfl), rfl, rfl, trivial, trivial, ?_⟩
    intro c hc
    constructor
    · intro hmem
      simp only [List.mem_append, List.mem_singleton, List.mem_map, List.append_nil] at hmem
      rcases hmem with (((((h | h) | h) | h) | h) | h)
      · exact absurd h (by simp)
      · obtain ⟨x, -, hx⟩ := h
        injection hx with h1 h2
        exact absurd h1 (Ne.symm hc)
      · injection h with h1 h2
        exact absurd h1 hc
      · obtain ⟨x, -, hx⟩ := h
        injection hx with h1 h2
        exact absurd h1 (Ne.symm hc)
      · obtain ⟨x, -, hx⟩ := h
        injection hx with h1 h2
        exact absurd h1 (Ne.symm hc)
      · rw [mem_announceMsg] at h
        obtain ⟨-, p, hp, -⟩ := h
        exact ⟨p, hp⟩
    · rintro ⟨p, hp⟩
      simp only [List.mem_append, List.append_nil]
      right
      rw [mem_announceMsg]
      exact ⟨rfl, p, hp, by simp⟩

/-- Claim C8 witness: the accepted join of bob into `lbC3`, whose
pre-join state is not unanimous. -/
theorem c8_witness :
    ∃ lb', dictGet 0 (onMessage gC3 sC3 [] false "bob").g.heap = some lb' ∧
      lb'.giveups = (if lbC3.giveups.length ≥ connectedCount lbC3 then
                       setAdd "bob" lbC3.giveups
                     else lbC3.giveups) ∧
      lb'.players = dictSet "bob" (some sC3.conn) lbC3.players ∧
      (onMessage gC3 sC3 [] false "bob").s.clientState = .playing ∧
      (onMessage gC3 sC3 [] false "bob").outcome = .normal ∧
      (∀ c, c ≠ sC3.conn →
        (Event.send c (":join " ++ "bob") ∈ (onMessage gC3 sC3 [] false "bob").evs ↔
          ∃ p, (p, some c) ∈ lbC3.players)) :=
  c8_join_accept_order gC3 sC3 [] 0 lbC3 "bob" rfl rfl (by decide) (by decide) (by decide)

/-! Claim C9. -/

/-- Claim C9 counterexample: the disconnect of the last connected player
of lobby 42 acquires that lobby's mutex first and the registry mutex
second — lobby deletion uses the reverse of the claimed registry-before-
lobby order. -/
theorem c9_counterexample :
    acquires (onClose gC9 sC9).evs = [.lobbyLock 5, .registry] := by
  decide

theorem acquires_append (a b : List Event) : acquires (a ++ b) = acquires a ++ acquires b := by
  simp [acquires, List.filterMap_append]

theorem acquires_map_send {α : Type} (c : ConnId) (l : List α) (f : α → String) :
    acquires (l.map fun x => Event.send c (f x)) = [] := by
  induction l with
  | nil => simp [acquires]
  | cons hd tl ih =>
    simp only [acquires, List.map_cons, List.filterMap_cons] at ih ⊢
    exact ih

theorem acquires_announceMsg (lb : Lobby) (nm m : String) (ts : Bool) :
    acquires (announceMsg lb nm m ts) = [] := by
  rw [acquires, List.filterMap_eq_nil_iff]
  intro e he
  rw [announceMsg, List.mem_filterMap] at he
  obtain ⟨pc, -, hf⟩ := he
  obtain ⟨p, oc⟩ := pc
  cases oc with
  | none => simp at hf
  | some c2 =>
    simp only at hf
    split at hf
    · injection hf with h
      subst h
      rfl
    · cases hf

theorem announceMsg_no_acquire (lb : Lobby) (nm m : String) (ts : Bool) :
    ∀ a ∈ announceMsg lb nm m ts,
      (match a with
       | Event.acquire l => some l
       | _ => none) = (none : Option LockTag) := by
  intro a ha
  rw [announceMsg, List.mem_filterMap] at ha
  obtain ⟨pc, -, hf⟩ := ha
  obtain ⟨p, oc⟩ := pc
  cases oc with
  | none => simp at hf
  | some c2 =>
    simp only at hf
    split at hf
    · injection hf with h
      subst h
      rfl
    · cases hf

theorem c9aux_jc (g : GlobalState) (s : Session) (draws : List Nat) (msg : String) :
    ∃ r, acquires (handleJustConnected g s draws msg).evs ∈
      ([[], [.registry], [.registry, .lobbyLock r]] : List (List LockTag)) := by
  unfold handleJustConnected
  by_cases h1 : (pySplit1 msg).1 = ":host"
  · rw [if_pos h1]
    cases harg : (pySplit1 msg).2 with
    | none => exact ⟨0, by simp [acquires]⟩
    | some arg =>
      dsimp only
      by_cases hv : validateName arg = false
      · rw [if_pos hv]
        exact ⟨0, by simp [acquires, List.filterMap_cons]⟩
      · rw [if_neg hv]
        cases hgen : genLobbyName draws g.lobbies with
        | none => exact ⟨0, by simp [acquires, List.filterMap_cons]⟩
        | some ln => exact ⟨0, by simp [acquires, List.filterMap_cons]⟩
  · rw [if_neg h1]
    by_cases h2 : (pySplit1 msg).1 = ":join"
    · rw [if_pos h2]
      cases harg : (pySplit1 msg).2 with
      | none => exact ⟨0, by simp [acquires]⟩
      | some arg =>
        dsimp only
        cases hreg : dictGet arg g.lobbies with
        | none => exact ⟨0, by simp [acquires, List.filterMap_cons]⟩
        | some ref2 =>
          dsimp only
          cases hlb2 : dictGet ref2 g.heap with
          | none => exact ⟨ref2, by simp [acquires, List.filterMap_cons]⟩
          | some lb2 =>
            dsimp only
            by_cases hemp : lb2.players.isEmpty = true
            · rw [if_pos hemp]
              exact ⟨ref2, by simp [acquires, List.filterMap_cons]⟩
            · rw [if_neg hemp]
              refine ⟨ref2, ?_⟩
              simp only [acquires_append, acquires_map_send]
              simp [acquires, List.filterMap_cons]
    · rw [if_neg h2]
      exact ⟨0, by simp [acquires]⟩

theorem c9aux_rw (g : GlobalState) (s : Session) (msg : String) :
    ∃ r, acquires (handleReceivingWords g s msg).evs ∈
      ([[], [.lobbyLock r]] : List (List LockTag)) := by
  unfold handleReceivingWords
  cases href : s.lobby with
  | none => exact ⟨0, by simp [acquires]⟩
  | some ref0 =>
    dsimp only
    cases hlb0 : dictGet ref0 g.heap with
    | none => exact ⟨ref0, by simp [acquires, List.filterMap_cons]⟩
    | some lb0 =>
      dsimp only
      split
      · cases hnm : s.name with
        | none => exact ⟨ref0, by simp [acquires, List.filterMap_cons]⟩
        | some nm =>
          dsimp only
          cases hln : s.lobbyname with
          | none => exact ⟨ref0, by simp [acquires, List.filterMap_cons]⟩
          | some ln => exact ⟨ref0, by simp [acquires, List.filterMap_cons]⟩
      · cases hnm : s.name with
        | none => exact ⟨ref0, by simp [acquires, List.filterMap_cons]⟩
        | some nm => exact ⟨ref0, by simp [acquires, List.filterMap_cons]⟩

theorem c9aux_gn (g : GlobalState) (s : Session) (msg : String) :
    ∃ r, acquires (handleGettingName g s msg).evs ∈
      ([[], [.lobbyLock r]] : List (List LockTag)) := by
  unfold handleGettingName
  cases href : s.lobby with
  | none => exact ⟨0, by simp [acquires]⟩
  | some ref0 =>
    dsimp only
    cases hlb0 : dictGet ref0 g.heap with
    | none => exact ⟨ref0, by simp [acquires, List.filterMap_cons]⟩
    | some lb0 =>
      dsimp only
      split
      · exact ⟨ref0, by simp [acquires, List.filterMap_cons]⟩
      · refine ⟨ref0, ?_⟩
        simp only [check_giveup]
        by_cases hcg : lb0.giveups.length ≥ connectedCount lb0
        · rw [if_pos hcg]
          simp only [acquires_append, acquires_map_send, acquires_announceMsg]
          simp [acquires, List.filterMap_cons]
        · rw [if_neg hcg]
          simp only [acquires_append, acquires_map_send, acquires_announceMsg]
          simp [acquires, List.filterMap_cons]

theorem c9aux_pl (g : GlobalState) (s : Session) (msg : String) :
    ∃ r, acquires (handlePlaying g s msg).evs ∈
      ([[], [.lobbyLock r]] : List (List LockTag)) := by
  unfold handlePlaying
  by_cases h1 : (pySplit1 msg).1 = ":attempt"
  · rw [if_pos h1]
    cases harg : (pySplit1 msg).2 with
    | none => exact ⟨0, by simp [acquires]⟩
    | some word =>
      dsimp only
      cases href : s.lobby with
      | none => exact ⟨0, by simp [acquires]⟩
      | some ref0 =>
        dsimp only
        cases hlb0 : dictGet ref0 g.heap with
        | none => exact ⟨ref0, by simp [acquires, List.filterMap_cons]⟩
        | some lb0 =>
          dsimp only
          cases hnm : s.name with
          | none => exact ⟨ref0, by simp [acquires, List.filterMap_cons]⟩
          | some nm =>
            refine ⟨ref0, ?_⟩
            simp only [acquires_append, acquires_announceMsg]
            simp [acquires, List.filterMap_cons]
  · rw [if_neg h1]
    by_cases h2 : (pySplit1 msg).1 = ":giveup"
    · rw [if_pos h2]
      cases href : s.lobby with
      | none => exact ⟨0, by simp [acquires]⟩
      | some ref0 =>
        dsimp only
        cases hlb0 : dictGet ref0 g.heap with
        | none => exact ⟨ref0, by simp [acquires, List.filterMap_cons]⟩
        | some lb0 =>
          dsimp only
          cases hnm : s.name with
          | none => exact ⟨ref0, by simp [acquires, List.filterMap_cons]⟩
          | some nm =>
            refine ⟨ref0, ?_⟩
            simp only [check_giveup]
            by_cases hcg : (setAdd nm lb0.giveups).length ≥
                connectedCount ⟨lb0.players, lb0.words, setAdd nm lb0.giveups⟩
            · rw [if_pos hcg]
              simp only [acquires_append, acquires_announceMsg]
              simp [acquires, List.filterMap_cons]
            · rw [if_neg hcg]
              simp only [acquires_append, acquires_announceMsg]
              simp [acquires, List.filterMap_cons]
    · rw [if_neg h2]
      by_cases h3 : (pySplit1 msg).1 = ":ungiveup"
      · rw [if_pos h3]
        cases href : s.lobby with
        | none => exact ⟨0, by simp [acquires]⟩
        | some ref0 =>
          dsimp only
          cases hlb0 : dictGet ref0 g.heap with
          | none => exact ⟨ref0, by simp [acquires, List.filterMap_cons]⟩
          | some lb0 =>
            dsimp only
            cases hnm : s.name with
            | none => exact ⟨ref0, by simp [acquires, List.filterMap_cons]⟩
            | some nm =>
              refine ⟨ref0, ?_⟩
              simp only [acquires_append, acquires_announceMsg]
              simp [acquires, List.filterMap_cons]
      · rw [if_neg h3]
        exact ⟨0, by simp [acquires]⟩

theorem c9aux_close (g : GlobalState) (s : Session) :
    ∃ r, acquires (onClose g s).evs ∈
      ([[], [.lobbyLock r], [.lobbyLock r, .registry]] : List (List LockTag)) := by
  unfold onClose
  by_cases hcs : s.clientState = .playing
  · rw [if_pos hcs]
    cases href : s.lobby with
    | none => exact ⟨0, by simp [acquires]⟩
    | some ref0 =>
      dsimp only
      cases hlb0 : dictGet ref0 g.heap with
      | none => exact ⟨ref0, by simp [acquires, List.filterMap_cons]⟩
      | some lb0 =>
        dsimp only
        cases hnm : s.name with
        | none => exact ⟨ref0, by simp [acquires, List.filterMap_cons]⟩
        | some nm =>
          dsimp only
          refine ⟨ref0, ?_⟩
          split
          · simp only [check_giveup]
            split
            · simp only [acquires_append, acquires_announceMsg]
              simp [acquires, List.filterMap_cons]
            · simp only [acquires_append, acquires_announceMsg]
              simp [acquires, List.filterMap_cons]
          · split
            · simp [acquires, List.filterMap_cons]
            · split
              · simp [acquires, List.filterMap_cons]
              · simp [acquires, List.filterMap_cons]
  · rw [if_neg hcs]
    exact ⟨0, by simp [acquires]⟩

/-- Claim C9 (amended): every `onMessage` invocation acquires, in order,
either no lock, the registry lock alone, the registry lock and then one
lobby lock (creation and join keep registry-before-lobby), or one lobby
lock alone; every `onClose` acquires either no lock, one lobby lock, or —
on the deletion path — one lobby lock and then the registry lock, the
reverse of the registry-before-lobby order.  In particular no invocation
ever acquires two different lobbies' mutexes. -/
theorem c9_lock_order (g : GlobalState) (s : Session) (draws : List Nat) (bin : Bool)
    (msg : String) :
    (∃ r, acquires (onMessage g s draws bin msg).evs ∈
      ([[], [.registry], [.registry, .lobbyLock r], [.lobbyLock r]] : List (List LockTag))) ∧
    (∃ r, acquires (onClose g s).evs ∈
      ([[], [.lobbyLock r], [.lobbyLock r, .registry]] : List (List LockTag))) := by
  constructor
  · unfold onMessage
    by_cases hbin : bin = true
    · rw [if_pos hbin]
      exact ⟨0, by simp [acquires]⟩
    · rw [if_neg hbin]
      cases hcs : s.clientState
      · obtain ⟨r, hr⟩ := c9aux_jc g s draws msg
        refine ⟨r, ?_⟩
        simp only [List.mem_cons, List.not_mem_nil, or_false] at hr ⊢
        tauto
      · obtain ⟨r, hr⟩ := c9aux_rw g s msg
        refine ⟨r, ?_⟩
        simp only [List.mem_cons, List.not_mem_nil, or_false] at hr ⊢
        tauto
      · obtain ⟨r, hr⟩ := c9aux_gn g s msg
        refine ⟨r, ?_⟩
        simp only [List.mem_cons, List.not_mem_nil, or_false] at hr ⊢
        tauto
      · obtain ⟨r, hr⟩ := c9aux_pl g s msg
        refine ⟨r, ?_⟩
        simp only [List.mem_cons, List.not_mem_nil, or_false] at hr ⊢
        tauto
  · exact c9aux_close g s

/-! Claim C10. -/

/-- Claim C10 (confirmed): a ReceivingWords message whose first
space-delimited token is not `:endwords` stores exactly the substring
before the first space as the word key; the answerer is the host's name
precisely when the remainder after the first space is the exact string y,
and null for any other remainder, which is discarded; nothing is sent and
the session stays in ReceivingWords. -/
theorem c10_word_parse (g : GlobalState) (s : Session) (draws : List Nat)
    (ref : LobbyRef) (lb : Lobby) (nm w r msg : String)
    (hcs : s.clientState = .receivingWords) (href : s.lobby = some ref)
    (hlb : dictGet ref g.heap = some lb) (hnm : s.name = some nm)
    (hp : pyPartition msg = (w, r)) (hw : ¬(w = ":endwords")) :
    onMessage g s draws false msg =
      ⟨heapSet ref { lb with words := dictSet w (if r = "y" then some nm else none) lb.words } g,
       s, [.acquire (.lobbyLock ref)], .normal⟩ := by
  simp only [onMessage, hcs, Bool.false_eq_true, if_false]
  unfold handleReceivingWords
  rw [href]
  simp [hlb, hnm, hp, hw]

/-- Claim C10 witness: the host line dog yes stores the key dog with a
null answerer, discarding the non-y remainder. -/
theorem c10_witness :
    onMessage gW2 sHostW2 [] false "dog yes" =
      ⟨heapSet 0 ⟨[], [("dog", none)], []⟩ gW2, sHostW2,
       [.acquire (.lobbyLock 0)], .normal⟩ := by
  have h := c10_word_parse gW2 sHostW2 [] 0 ⟨[], [], []⟩ "alice" "dog" "yes" "dog yes"
    rfl rfl (by decide) rfl (by decide) (by decide)
  exact h.trans (by decide)

end SLGameServer
